import Mathlib

/-!
# Verification of the quotes-scraper (`src/app/parse.py`)

Shallow embedding of the scraper in `app/parse.py`:

* `Quote` mirrors the `Quote` dataclass.
* A quote block (`div.quote` fragment handed to `parse_single_quote`) is
  modelled by `QuoteSoup`: the `.text` element, the `.author` element, the
  `.tags .tag` texts and the `href` of the `.author + a` element, each
  optional element as an `Option`.
* The HTTP world is a `ScrapeEnv`: `listing n` is the outcome of
  `requests.get(f"{BASE_URL}page/{n}/")` and `author url` the outcome of
  `requests.get(author_url)`.  A `requests` exception is `transportError`;
  otherwise the response carries a status code and the parsed body.
* Python exceptions become `Except ScrapeError`; the unbounded `while True`
  loop of `get_quotes` is given explicit fuel, `none` meaning the fuel ran
  out before the loop terminated.
* The author-bio cache (a Python dict, insertion ordered) is an association
  list; alongside it the state records each invocation of `get_author_bio`
  (author name and URL) so that at-most-once fetch properties are statable.
* Python's `csv.writer` (default dialect: delimiter `,`, quote char `"`,
  doubled quotes, QUOTE_MINIMAL, line terminator CRLF) is modelled
  character-exactly by `encodeRow`/`writerow`, and a CSV reader `parseCSV`
  is provided for round-trip statements.
-/

namespace SQ

/-- The `Quote` dataclass of `app/parse.py`. -/
structure Quote where
  text : String
  author : String
  tags : List String
deriving DecidableEq, Repr

/-- One `div.quote` block as seen by `parse_single_quote`: the sub-elements
it queries, `none` standing for an absent element/attribute. -/
structure QuoteSoup where
  textElem : Option String
  authorElem : Option String
  tags : List String
  authorHref : Option String
deriving DecidableEq, Repr

/-- Outcome of `requests.get` on a listing page: an exception, or a response
with a status code and the quote blocks found in its body. -/
inductive ListingResult where
  | transportError : ListingResult
  | response (status : Nat) (blocks : List QuoteSoup) : ListingResult
deriving DecidableEq, Repr

/-- Outcome of `requests.get` on an author detail page: an exception, or a
response with a status code and the text of the
`.author-details .author-description` element when present. -/
inductive AuthorFetchResult where
  | transportError : AuthorFetchResult
  | response (status : Nat) (bioElem : Option String) : AuthorFetchResult
deriving DecidableEq, Repr

/-- The external HTTP world the scraper runs against. -/
structure ScrapeEnv where
  listing : Nat → ListingResult
  author : String → AuthorFetchResult

/-- Errors that abort a run (uncaught Python exceptions): a `requests`
transport failure, or an `AttributeError`/`TypeError` from a missing
required sub-element of a quote block. -/
inductive ScrapeError where
  | transport : ScrapeError
  | missingText : ScrapeError
  | missingAuthor : ScrapeError
  | missingAuthorLink : ScrapeError
deriving DecidableEq, Repr

/-- Mutable state threaded through a run: the `author_bios` dict (insertion
ordered association list) plus an instrumentation log of every
`get_author_bio` invocation (author name, author URL). -/
structure ScrapeState where
  author_bios : List (String × String)
  fetchLog : List (String × String)
deriving DecidableEq, Repr

/-- `BASE_URL` of `app/parse.py`. -/
def BASE_URL : String := "https://quotes.toscrape.com/"

/-- Whitespace as stripped by `get_text(strip=True)`. -/
def isSpaceChar (c : Char) : Bool :=
  c == ' ' || c == '\t' || c == '\n' || c == '\r'

/-- The stripping `get_text(strip=True)` applies to the element text:
whitespace removed from both ends. -/
def pyStrip (s : String) : String :=
  String.mk (((s.data.dropWhile isSpaceChar).reverse.dropWhile isSpaceChar).reverse)

/-- Python dict lookup on the association-list model: first matching key. -/
def lookupBio (a : String) : List (String × String) → Option String
  | [] => none
  | kv :: rest => if kv.1 = a then some kv.2 else lookupBio a rest

/-- `get_author_bio` of `app/parse.py`: fetch the author page; on a status
other than 200 return the sentinel; otherwise return the stripped text of
the biography element, or the sentinel when the element is absent.  A
transport failure propagates. -/
def get_author_bio (env : ScrapeEnv) (author_url : String) :
    Except ScrapeError String :=
  match env.author author_url with
  | .transportError => .error .transport
  | .response status bioElem =>
    if status ≠ 200 then .ok "Biography not available."
    else
      match bioElem with
      | some bio => .ok (pyStrip bio)
      | none => .ok "Biography not available."

/-- `parse_single_quote` of `app/parse.py`: read `.text`, `.author`, the
tags and the `href` of `.author + a` (a missing one raises); then, when the
author is not cached, call `get_author_bio` and insert the result.  The
state also logs the `get_author_bio` invocation. -/
def parse_single_quote (env : ScrapeEnv) (quote_soup : QuoteSoup)
    (st : ScrapeState) : Except ScrapeError (Quote × ScrapeState) :=
  match quote_soup.textElem with
  | none => .error .missingText
  | some text =>
    match quote_soup.authorElem with
    | none => .error .missingAuthor
    | some author =>
      let tags := quote_soup.tags
      match quote_soup.authorHref with
      | none => .error .missingAuthorLink
      | some href =>
        let author_url := BASE_URL ++ href
        if (lookupBio author st.author_bios).isSome then
          .ok (⟨text, author, tags⟩, st)
        else
          match get_author_bio env author_url with
          | .error e => .error e
          | .ok bio =>
            .ok (⟨text, author, tags⟩,
                 ⟨st.author_bios ++ [(author, bio)],
                  st.fetchLog ++ [(author, author_url)]⟩)

/-- `get_single_page_quotes` of `app/parse.py`: parse the quote blocks of a
page left to right, threading the cache; the first failure propagates. -/
def get_single_page_quotes (env : ScrapeEnv) (blocks : List QuoteSoup)
    (st : ScrapeState) : Except ScrapeError (List Quote × ScrapeState) :=
  match blocks with
  | [] => .ok ([], st)
  | b :: rest =>
    match parse_single_quote env b st with
    | .error e => .error e
    | .ok (q, st') =>
      match get_single_page_quotes env rest st' with
      | .error e => .error e
      | .ok (qs, st'') => .ok (q :: qs, st'')

/-- The `while True` loop of `get_quotes`, with explicit fuel (`none` =
fuel exhausted before the loop ended): fetch page `page_number`; a
transport failure aborts; a 404 ends the run; otherwise parse the page,
stop if it has no quotes, else accumulate and advance. -/
def get_quotes_aux (env : ScrapeEnv) :
    Nat → Nat → List Quote → ScrapeState →
    Option (Except ScrapeError (List Quote × ScrapeState))
  | 0, _, _, _ => none
  | fuel + 1, page_number, all_quotes, st =>
    match env.listing page_number with
    | .transportError => some (.error .transport)
    | .response status blocks =>
      if status = 404 then some (.ok (all_quotes, st))
      else
        match get_single_page_quotes env blocks st with
        | .error e => some (.error e)
        | .ok (quotes_on_page, st') =>
          if quotes_on_page = [] then some (.ok (all_quotes, st'))
          else get_quotes_aux env fuel (page_number + 1)
                 (all_quotes ++ quotes_on_page) st'

/-- Initial state of a run: empty cache, empty fetch log. -/
def initState : ScrapeState := ⟨[], []⟩

/-- `get_quotes` of `app/parse.py`: run the pagination loop from page 1
with an empty accumulator and cache. -/
def get_quotes (env : ScrapeEnv) (fuel : Nat) :
    Option (Except ScrapeError (List Quote × ScrapeState)) :=
  get_quotes_aux env fuel 1 [] initState

/-- The quote a well-formed block yields, independently of the cache:
`some` exactly when all three required sub-elements are present. -/
def quoteOfSoup (qs : QuoteSoup) : Option Quote :=
  match qs.textElem, qs.authorElem, qs.authorHref with
  | some t, some a, some _ => some ⟨t, a, qs.tags⟩
  | _, _, _ => none

/-! ## CSV serialization (Python `csv.writer`, default dialect) -/

/-- QUOTE_MINIMAL: a field is quoted iff it contains the delimiter, the
quote char, or a line-terminator character. -/
def needsQuote (cs : List Char) : Bool :=
  cs.any fun c => c == ',' || c == '"' || c == '\r' || c == '\n'

/-- Double every quote char, as `csv.writer` does inside a quoted field. -/
def escapeQuotes : List Char → List Char
  | [] => []
  | c :: rest =>
    if c = '"' then '"' :: '"' :: escapeQuotes rest
    else c :: escapeQuotes rest

/-- Encode one field under QUOTE_MINIMAL. -/
def encodeField (s : String) : List Char :=
  if needsQuote s.data then '"' :: (escapeQuotes s.data ++ ['"']) else s.data

/-- Encode one row: fields joined by the delimiter. -/
def encodeRow : List String → List Char
  | [] => []
  | [f] => encodeField f
  | f :: fs => encodeField f ++ ',' :: encodeRow fs

/-- `writer.writerow(r)`: the encoded row followed by CRLF (the default
line terminator; the file is opened with `newline=""`). -/
def writerow (r : List String) : String := String.mk (encodeRow r ++ ['\r', '\n'])

/-- The tag-join of `write_quotes_to_csv`, the tag-flattening convention of
`write_quotes_to_csv`. -/
def joinTags : List String → String
  | [] => ""
  | [t] => t
  | t :: ts => t ++ ", " ++ joinTags ts

/-- The row `write_quotes_to_csv` emits for one quote. -/
def quoteRow (q : Quote) : List String := [q.text, q.author, joinTags q.tags]

/-- `write_quotes_to_csv` of `app/parse.py`: header `Text, Author, Tags`,
then one row per quote in order, tags joined with `", "`.  The result is
the full text written to the file. -/
def write_quotes_to_csv (quotes : List Quote) : String :=
  quotes.foldl (fun file q => file ++ writerow (quoteRow q))
    (writerow ["Text", "Author", "Tags"])

/-- `write_authors_to_csv` of `app/parse.py`: header `Author, Biography`,
then one row per cache entry in insertion order. -/
def write_authors_to_csv (author_bios : List (String × String)) : String :=
  author_bios.foldl (fun file ab => file ++ writerow [ab.1, ab.2])
    (writerow ["Author", "Biography"])

/-! ## A CSV reader (delimiter-splitting, quote-respecting) -/

/-- Reader modes: inside an unquoted field, inside a quoted field, just
after a closing quote, just after a CR in unquoted context. -/
inductive CsvMode where
  | field : CsvMode
  | quoted : CsvMode
  | closed : CsvMode
  | cr : CsvMode
deriving DecidableEq, Repr

/-- Flush the pending field/row at end of input.  A clean end (mode
`field`, nothing pending) yields no extra row. -/
def csvFlush (m : CsvMode) (f : List Char) (r : List String) :
    List (List String) :=
  match m with
  | .field => if f = [] ∧ r = [] then [] else [r ++ [String.mk f]]
  | .cr => [r ++ [String.mk (f ++ ['\r'])]]
  | _ => [r ++ [String.mk f]]

/-- One-character-at-a-time CSV reader (doubled-quote escaping, CRLF or
bare LF row terminators), accumulating the pending field `f` and the
fields `r` of the current row. -/
def goCSV : CsvMode → List Char → List Char → List String → List (List String)
  | m, [], f, r => csvFlush m f r
  | .field, c :: rest, f, r =>
    if c = ',' then goCSV .field rest [] (r ++ [String.mk f])
    else if c = '\n' then (r ++ [String.mk f]) :: goCSV .field rest [] []
    else if c = '\r' then goCSV .cr rest f r
    else if c = '"' ∧ f = [] then goCSV .quoted rest [] r
    else goCSV .field rest (f ++ [c]) r
  | .cr, c :: rest, f, r =>
    if c = '\n' then (r ++ [String.mk f]) :: goCSV .field rest [] []
    else goCSV .field rest (f ++ ['\r', c]) r
  | .quoted, c :: rest, f, r =>
    if c = '"' then goCSV .closed rest f r
    else goCSV .quoted rest (f ++ [c]) r
  | .closed, c :: rest, f, r =>
    if c = '"' then goCSV .quoted rest (f ++ ['"']) r
    else if c = ',' then goCSV .field rest [] (r ++ [String.mk f])
    else if c = '\n' then (r ++ [String.mk f]) :: goCSV .field rest [] []
    else if c = '\r' then goCSV .cr rest f r
    else goCSV .field rest (f ++ [c]) r

/-- Read a CSV file back into its rows of fields. -/
def parseCSV (s : String) : List (List String) := goCSV .field s.data [] []

/-! ## Reconstructing a tag list from its `", "`-joined form -/

/-- Prepend a character to the first piece of a split. -/
def consHead (c : Char) : List (List Char) → List (List Char)
  | [] => [[c]]
  | f :: fs => (c :: f) :: fs

/-- Split a character list on every occurrence of the separator `", "`. -/
def splitSepChars : List Char → List (List Char)
  | [] => [[]]
  | [c] => [[c]]
  | c1 :: c2 :: rest =>
    if c1 = ',' ∧ c2 = ' ' then [] :: splitSepChars rest
    else consHead c1 (splitSepChars (c2 :: rest))

/-- Inverse of the `", "`-join flattening convention: split the flattened
field on the separator. -/
def reconstructTags (s : String) : List String :=
  (splitSepChars s.data).map String.mk

/-! ## Basic lemmas -/

theorem mk_data (s : String) : String.mk s.data = s := rfl

theorem lookupBio_append_some (a b : String) (l l₂ : List (String × String))
    (h : lookupBio a l = some b) : lookupBio a (l ++ l₂) = some b := by
  induction l with
  | nil => simp [lookupBio] at h
  | cons kv rest ih =>
    by_cases hk : kv.1 = a
    · simp [lookupBio, hk] at h ⊢; exact h
    · simp [lookupBio, hk] at h ⊢; exact ih h

theorem lookupBio_isSome_append_single (a k v : String)
    (l : List (String × String)) :
    (lookupBio a (l ++ [(k, v)])).isSome ↔
      ((lookupBio a l).isSome ∨ a = k) := by
  induction l with
  | nil =>
    by_cases hk : k = a
    · simp [lookupBio, hk]
    · simp [lookupBio, hk]
      exact fun he => hk he.symm
  | cons kv rest ih =>
    by_cases hk : kv.1 = a <;> simp [lookupBio, hk, ih]

theorem lookupBio_isSome_iff_mem (a : String) (l : List (String × String)) :
    (lookupBio a l).isSome ↔ a ∈ l.map Prod.fst := by
  induction l with
  | nil => simp [lookupBio]
  | cons kv rest ih =>
    by_cases hk : kv.1 = a
    · simp [lookupBio, hk]
    · rw [List.map_cons]
      simp only [lookupBio, hk, if_false, List.mem_cons, ih]
      constructor
      · exact fun hm => Or.inr hm
      · rintro (he | hm)
        · exact absurd he.symm hk
        · exact hm

/-! ## Behaviour of `parse_single_quote` -/

/-- Master step lemma for `parse_single_quote`: a successful parse yields
the block's quote, preserves every existing cache entry, adds exactly the
quote's author to the key set, keeps the cache keys in lockstep with the
fetch log, keeps the keys duplicate-free, and does not touch the state at
all when the author is already cached. -/
theorem parse_step (env : ScrapeEnv) (qs : QuoteSoup) (st : ScrapeState)
    (q : Quote) (st' : ScrapeState)
    (h : parse_single_quote env qs st = .ok (q, st')) :
    quoteOfSoup qs = some q ∧
    (∀ a b, lookupBio a st.author_bios = some b →
      lookupBio a st'.author_bios = some b) ∧
    (∀ a, (lookupBio a st'.author_bios).isSome ↔
      ((lookupBio a st.author_bios).isSome ∨ a = q.author)) ∧
    (st.author_bios.map Prod.fst = st.fetchLog.map Prod.fst →
      st'.author_bios.map Prod.fst = st'.fetchLog.map Prod.fst) ∧
    ((st.author_bios.map Prod.fst).Nodup →
      (st'.author_bios.map Prod.fst).Nodup) ∧
    ((lookupBio q.author st.author_bios).isSome → st' = st) := by
  obtain ⟨tx, au, tg, hr⟩ := qs
  cases tx with
  | none => simp [parse_single_quote] at h
  | some text =>
  cases au with
  | none => simp [parse_single_quote] at h
  | some author =>
  cases hr with
  | none => simp [parse_single_quote] at h
  | some href =>
  simp only [parse_single_quote] at h
  by_cases hc : (lookupBio author st.author_bios).isSome
  · simp only [hc, if_true] at h
    obtain ⟨hq, hst⟩ : (⟨text, author, tg⟩ : Quote) = q ∧ st = st' := by
      cases h; exact ⟨rfl, rfl⟩
    subst hq; subst hst
    refine ⟨rfl, fun a b hb => hb, fun a => ?_, fun he => he, fun hn => hn,
      fun _ => rfl⟩
    constructor
    · exact fun hs => Or.inl hs
    · rintro (hs | rfl)
      · exact hs
      · exact hc
  · simp only [hc, if_false] at h
    cases hbio : get_author_bio env (BASE_URL ++ href) with
    | error e => rw [hbio] at h; cases h
    | ok bio =>
      rw [hbio] at h
      obtain ⟨hq, hst⟩ :
          (⟨text, author, tg⟩ : Quote) = q ∧
          (⟨st.author_bios ++ [(author, bio)],
            st.fetchLog ++ [(author, BASE_URL ++ href)]⟩ : ScrapeState)
            = st' := by
        cases h; exact ⟨rfl, rfl⟩
      subst hq; subst hst
      refine ⟨rfl, ?_, ?_, ?_, ?_, ?_⟩
      · exact fun a b hb => lookupBio_append_some a b _ _ hb
      · exact fun a => lookupBio_isSome_append_single a author bio _
      · intro he; simp [he]
      · intro hn
        have hmem : author ∉ st.author_bios.map Prod.fst := by
          rw [← lookupBio_isSome_iff_mem]; exact hc
        simp [List.nodup_append, hn, hmem]
      · intro hs; exact absurd hs hc

/-- When the author page responds at all (no transport failure),
`get_author_bio` always succeeds with some string. -/
theorem get_author_bio_ok (env : ScrapeEnv) (url : String)
    (h : env.author url ≠ .transportError) :
    ∃ b, get_author_bio env url = .ok b := by
  cases henv : env.author url with
  | transportError => exact absurd henv h
  | response s bioE =>
    simp only [get_author_bio, henv]
    by_cases hs : s ≠ 200
    · exact ⟨"Biography not available.", by simp [hs]⟩
    · cases bioE with
      | some bio => exact ⟨pyStrip bio, by simp [hs]⟩
      | none => exact ⟨"Biography not available.", by simp [hs]⟩

/-- A well-formed block parses successfully (to its block quote) whenever
no author-page fetch fails at transport level. -/
theorem parse_ok_of_wf (env : ScrapeEnv) (qs : QuoteSoup) (st : ScrapeState)
    (q : Quote) (hwf : quoteOfSoup qs = some q)
    (hA : ∀ url, env.author url ≠ .transportError) :
    ∃ st', parse_single_quote env qs st = .ok (q, st') := by
  obtain ⟨tx, au, tg, hr⟩ := qs
  cases tx with
  | none => simp [quoteOfSoup] at hwf
  | some text =>
  cases au with
  | none => simp [quoteOfSoup] at hwf
  | some author =>
  cases hr with
  | none => simp [quoteOfSoup] at hwf
  | some href =>
  simp only [quoteOfSoup] at hwf
  obtain rfl : (⟨text, author, tg⟩ : Quote) = q := by cases hwf; rfl
  simp only [parse_single_quote]
  by_cases hc : (lookupBio author st.author_bios).isSome
  · exact ⟨st, by simp [hc]⟩
  · obtain ⟨b, hb⟩ := get_author_bio_ok env (BASE_URL ++ href) (hA _)
    exact ⟨⟨st.author_bios ++ [(author, b)],
            st.fetchLog ++ [(author, BASE_URL ++ href)]⟩, by simp [hc, hb]⟩

/-! ## Behaviour of `get_single_page_quotes` -/

/-- Page-level invariant lemma: a successful page parse preserves cache
entries, extends the cached key set by exactly the page's authors, keeps
cache keys in lockstep with the fetch log, and keeps keys duplicate-free. -/
theorem page_step (env : ScrapeEnv) (blocks : List QuoteSoup) :
    ∀ st Q st', get_single_page_quotes env blocks st = .ok (Q, st') →
    (∀ a b, lookupBio a st.author_bios = some b →
      lookupBio a st'.author_bios = some b) ∧
    (∀ a, (lookupBio a st'.author_bios).isSome ↔
      ((lookupBio a st.author_bios).isSome ∨ a ∈ Q.map Quote.author)) ∧
    (st.author_bios.map Prod.fst = st.fetchLog.map Prod.fst →
      st'.author_bios.map Prod.fst = st'.fetchLog.map Prod.fst) ∧
    ((st.author_bios.map Prod.fst).Nodup →
      (st'.author_bios.map Prod.fst).Nodup) := by
  induction blocks with
  | nil =>
    intro st Q st' h
    obtain ⟨hQ, hst⟩ : ([] : List Quote) = Q ∧ st = st' := by
      cases h; exact ⟨rfl, rfl⟩
    subst hQ; subst hst
    exact ⟨fun a b hb => hb, fun a => by simp, fun he => he, fun hn => hn⟩
  | cons b rest ih =>
    intro st Q st' h
    cases hp : parse_single_quote env b st with
    | error e => simp [get_single_page_quotes, hp] at h
    | ok pr =>
      obtain ⟨q, st₁⟩ := pr
      cases hr : get_single_page_quotes env rest st₁ with
      | error e => simp [get_single_page_quotes, hp, hr] at h
      | ok pr₂ =>
        obtain ⟨qs, st₂⟩ := pr₂
        simp only [get_single_page_quotes, hp, hr, Except.ok.injEq,
          Prod.mk.injEq] at h
        obtain ⟨hQ, hst⟩ := h
        subst hQ; subst hst
        obtain ⟨-, hpres, hiff, hlock, hnd, -⟩ := parse_step env b st q st₁ hp
        obtain ⟨hpres₂, hiff₂, hlock₂, hnd₂⟩ := ih st₁ qs st₂ hr
        refine ⟨fun a bv hb => hpres₂ a bv (hpres a bv hb), fun a => ?_,
          fun he => hlock₂ (hlock he), fun hn => hnd₂ (hnd hn)⟩
        rw [hiff₂ a, hiff a]
        simp only [List.map_cons, List.mem_cons]
        tauto

/-- Success path of a page: when every block is well-formed and author
pages respond, the page yields exactly its blocks' quotes, in document
order. -/
theorem page_ok (env : ScrapeEnv) (blocks : List QuoteSoup)
    (hA : ∀ url, env.author url ≠ .transportError) :
    ∀ st, (∀ b ∈ blocks, (quoteOfSoup b).isSome) →
    ∃ st', get_single_page_quotes env blocks st =
      .ok (blocks.filterMap quoteOfSoup, st') := by
  induction blocks with
  | nil => intro st _; exact ⟨st, rfl⟩
  | cons b rest ih =>
    intro st hwf
    obtain ⟨q, hq⟩ := Option.isSome_iff_exists.mp (hwf b (by simp))
    obtain ⟨st₁, hp⟩ := parse_ok_of_wf env b st q hq hA
    obtain ⟨st₂, hr⟩ := ih st₁ (fun b' hb' => hwf b' (by simp [hb']))
    refine ⟨st₂, ?_⟩
    simp only [get_single_page_quotes, hp, hr, List.filterMap_cons, hq]

/-! ## Behaviour of the pagination loop -/

/-- Run-level invariant lemma: a terminating successful run preserves
cache entries, turns "cached keys = authors of the accumulator" into
"cached keys = authors of the result", keeps cache keys in lockstep with
the fetch log, and keeps keys duplicate-free. -/
theorem aux_inv (env : ScrapeEnv) :
    ∀ fuel n acc st qs st',
    get_quotes_aux env fuel n acc st = some (.ok (qs, st')) →
    (∀ a b, lookupBio a st.author_bios = some b →
      lookupBio a st'.author_bios = some b) ∧
    ((∀ a, (lookupBio a st.author_bios).isSome ↔ a ∈ acc.map Quote.author) →
      ∀ a, (lookupBio a st'.author_bios).isSome ↔ a ∈ qs.map Quote.author) ∧
    (st.author_bios.map Prod.fst = st.fetchLog.map Prod.fst →
      st'.author_bios.map Prod.fst = st'.fetchLog.map Prod.fst) ∧
    ((st.author_bios.map Prod.fst).Nodup →
      (st'.author_bios.map Prod.fst).Nodup) := by
  intro fuel
  induction fuel with
  | zero => intro n acc st qs st' h; cases h
  | succ fuel ih =>
    intro n acc st qs st' h
    cases hl : env.listing n with
    | transportError => simp [get_quotes_aux, hl] at h
    | response status blocks =>
      by_cases h404 : status = 404
      · simp only [get_quotes_aux, hl, h404, if_true, Option.some.injEq,
          Except.ok.injEq, Prod.mk.injEq] at h
        obtain ⟨hq, hst⟩ := h
        subst hq; subst hst
        exact ⟨fun a b hb => hb, fun hi => hi, fun he => he, fun hn => hn⟩
      · cases hp : get_single_page_quotes env blocks st with
        | error e => simp [get_quotes_aux, hl, h404, hp] at h
        | ok pr =>
          obtain ⟨Q, st₁⟩ := pr
          obtain ⟨hpres, hiff, hlock, hnd⟩ := page_step env blocks st Q st₁ hp
          by_cases hQ : Q = []
          · simp only [get_quotes_aux, hl, h404, if_false, hp, hQ, if_true,
              Option.some.injEq, Except.ok.injEq, Prod.mk.injEq] at h
            obtain ⟨hq, hst⟩ := h
            subst hq; subst hst
            refine ⟨hpres, fun hi a => ?_, hlock, hnd⟩
            rw [hiff a, hi a]; simp [hQ]
          · simp only [get_quotes_aux, hl, h404, if_false, hp, hQ] at h
            obtain ⟨hpres₂, hiff₂, hlock₂, hnd₂⟩ :=
              ih (n + 1) (acc ++ Q) st₁ qs st' h
            refine ⟨fun a b hb => hpres₂ a b (hpres a b hb), fun hi => ?_,
              fun he => hlock₂ (hlock he), fun hn => hnd₂ (hnd hn)⟩
            refine hiff₂ fun a => ?_
            rw [hiff a, hi a]
            simp [List.mem_append]

/-- A page of exclusively well-formed blocks, at least one of them, yields
a nonempty quote list. -/
theorem filterMap_wf_ne_nil (blocks : List QuoteSoup) (hne : blocks ≠ [])
    (hwf : ∀ b ∈ blocks, (quoteOfSoup b).isSome) :
    blocks.filterMap quoteOfSoup ≠ [] := by
  cases blocks with
  | nil => exact absurd rfl hne
  | cons b bs =>
    obtain ⟨q, hq⟩ := Option.isSome_iff_exists.mp (hwf b (by simp))
    simp [List.filterMap_cons, hq]

theorem range_succ_join {α : Type} (k n : Nat) (g : Nat → List α) :
    ((List.range (k + 1)).map fun j => g (n + j)).flatten =
      g n ++ ((List.range k).map fun j => g (n + 1 + j)).flatten := by
  rw [List.range_succ_eq_map]
  simp only [List.map_cons, List.flatten_cons, List.map_map, Nat.add_zero]
  have hfun : ((fun j => g (n + j)) ∘ Nat.succ) = fun j => g (n + 1 + j) := by
    funext j
    show g (n + Nat.succ j) = g (n + 1 + j)
    congr 1
    omega
  rw [hfun]

/-- A listing page the loop consumes and continues past: some non-404
status, at least one quote block, every block well-formed. -/
def goodPage (env : ScrapeEnv) (i : Nat) (blocks : List QuoteSoup) : Prop :=
  ∃ s, env.listing i = .response s blocks ∧ s ≠ 404 ∧ blocks ≠ [] ∧
    ∀ b ∈ blocks, (quoteOfSoup b).isSome

/-- A listing page that terminates the loop: a 404 response, or a
response whose body has zero quote blocks. -/
def endPage (env : ScrapeEnv) (i : Nat) : Prop :=
  (∃ blocks, env.listing i = .response 404 blocks) ∨
  (∃ s, env.listing i = .response s [])

/-- Success path of the loop: `k` good pages from page `n` followed by a
terminating page give exactly the concatenation of the pages' quotes,
appended to the accumulator, for any sufficient fuel. -/
theorem aux_good (env : ScrapeEnv)
    (hA : ∀ url, env.author url ≠ .transportError) (B : Nat → List QuoteSoup) :
    ∀ k n acc st,
    (∀ i, n ≤ i → i < n + k → goodPage env i (B i)) →
    endPage env (n + k) →
    ∀ fuel, k + 1 ≤ fuel →
    ∃ st', get_quotes_aux env fuel n acc st =
      some (.ok (acc ++
        ((List.range k).map fun j => (B (n + j)).filterMap quoteOfSoup).flatten,
        st')) := by
  intro k
  induction k with
  | zero =>
    intro n acc st _ hend fuel hfuel
    cases fuel with
    | zero => omega
    | succ f =>
      rcases hend with ⟨blocks, h404⟩ | ⟨s, hempty⟩
      · refine ⟨st, ?_⟩
        simp [get_quotes_aux, Nat.add_zero] at h404 ⊢
        simp [h404]
      · by_cases hs : s = 404
        · refine ⟨st, ?_⟩
          simp [Nat.add_zero] at hempty
          simp [get_quotes_aux, hempty, hs]
        · refine ⟨st, ?_⟩
          simp [Nat.add_zero] at hempty
          simp [get_quotes_aux, hempty, hs, get_single_page_quotes]
  | succ k ihk =>
    intro n acc st hgood hend fuel hfuel
    obtain ⟨s, hl, hs404, hne, hwf⟩ :=
      hgood n (Nat.le_refl n) (by omega)
    obtain ⟨st₁, hp⟩ := page_ok env (B n) hA st hwf
    have hQne : (B n).filterMap quoteOfSoup ≠ [] :=
      filterMap_wf_ne_nil (B n) hne hwf
    cases fuel with
    | zero => omega
    | succ f =>
      have hgood' : ∀ i, n + 1 ≤ i → i < n + 1 + k → goodPage env i (B i) :=
        fun i h1 h2 => hgood i (by omega) (by omega)
      have hend' : endPage env (n + 1 + k) := by
        have harith : n + 1 + k = n + (k + 1) := by omega
        rw [harith]; exact hend
      obtain ⟨st', hrec⟩ :=
        ihk (n + 1) (acc ++ (B n).filterMap quoteOfSoup) st₁ hgood' hend'
          f (by omega)
      refine ⟨st', ?_⟩
      simp only [get_quotes_aux, hl, hs404, if_false, hp, hQne, hrec]
      rw [range_succ_join k n (fun i => (B i).filterMap quoteOfSoup)]
      simp [List.append_assoc]

/-! ## CSV round-trip lemmas -/

theorem data_append (a b : String) : (a ++ b).data = a.data ++ b.data := rfl

theorem not_needsQuote (f : List Char) (h : needsQuote f = false) :
    ∀ c ∈ f, c ≠ ',' ∧ c ≠ '"' ∧ c ≠ '\r' ∧ c ≠ '\n' := by
  intro c hc
  simp only [needsQuote, List.any_eq_false, Bool.or_eq_true, beq_iff_eq,
    not_or] at h
  have hh := h c hc
  tauto

/-! Single-step unfoldings of the reader. -/

theorem goCSV_field_comma (rest : List Char) (f : List Char) (r : List String) :
    goCSV .field (',' :: rest) f r = goCSV .field rest [] (r ++ [String.mk f]) := by
  simp [goCSV]

theorem goCSV_field_cr (rest : List Char) (f : List Char) (r : List String) :
    goCSV .field ('\r' :: rest) f r = goCSV .cr rest f r := by
  simp [goCSV]

theorem goCSV_field_quote_start (rest : List Char) (r : List String) :
    goCSV .field ('"' :: rest) [] r = goCSV .quoted rest [] r := by
  simp [goCSV]

theorem goCSV_field_other (c : Char) (hc1 : c ≠ ',') (hc2 : c ≠ '\n')
    (hc3 : c ≠ '\r') (hc4 : c ≠ '"') (rest : List Char) (f : List Char)
    (r : List String) :
    goCSV .field (c :: rest) f r = goCSV .field rest (f ++ [c]) r := by
  simp [goCSV, hc1, hc2, hc3, hc4]

theorem goCSV_cr_lf (rest : List Char) (f : List Char) (r : List String) :
    goCSV .cr ('\n' :: rest) f r =
      (r ++ [String.mk f]) :: goCSV .field rest [] [] := by
  simp [goCSV]

theorem goCSV_quoted_quote (rest : List Char) (f : List Char) (r : List String) :
    goCSV .quoted ('"' :: rest) f r = goCSV .closed rest f r := by
  simp [goCSV]

theorem goCSV_quoted_other (c : Char) (hc : c ≠ '"') (rest : List Char)
    (f : List Char) (r : List String) :
    goCSV .quoted (c :: rest) f r = goCSV .quoted rest (f ++ [c]) r := by
  simp [goCSV, hc]

theorem goCSV_closed_quote (rest : List Char) (f : List Char) (r : List String) :
    goCSV .closed ('"' :: rest) f r = goCSV .quoted rest (f ++ ['"']) r := by
  simp [goCSV]

theorem goCSV_closed_comma (rest : List Char) (f : List Char) (r : List String) :
    goCSV .closed (',' :: rest) f r = goCSV .field rest [] (r ++ [String.mk f]) := by
  simp [goCSV]

theorem goCSV_closed_cr (rest : List Char) (f : List Char) (r : List String) :
    goCSV .closed ('\r' :: rest) f r = goCSV .cr rest f r := by
  simp [goCSV]

/-- The reader consumes an unquoted run of plain characters into the
pending field. -/
theorem goField_plain :
    ∀ f : List Char, (∀ c ∈ f, c ≠ ',' ∧ c ≠ '"' ∧ c ≠ '\r' ∧ c ≠ '\n') →
    ∀ rest f0 r, goCSV .field (f ++ rest) f0 r = goCSV .field rest (f0 ++ f) r := by
  intro f
  induction f with
  | nil => intro _ rest f0 r; simp
  | cons c f' ih =>
    intro h rest f0 r
    obtain ⟨h1, h2, h3, h4⟩ := h c (by simp)
    rw [List.cons_append]
    simp only [goCSV, h1, h2, h3, h4, if_false, false_and, ite_false]
    rw [ih (fun c' hc' => h c' (List.mem_cons_of_mem _ hc')) rest (f0 ++ [c]) r]
    simp [List.append_assoc]

/-- The reader consumes a quote-escaped run inside a quoted field. -/
theorem goQuoted_esc :
    ∀ f : List Char, ∀ rest f0 r,
    goCSV .quoted (escapeQuotes f ++ rest) f0 r = goCSV .quoted rest (f0 ++ f) r := by
  intro f
  induction f with
  | nil => intro rest f0 r; simp [escapeQuotes]
  | cons c f' ih =>
    intro rest f0 r
    by_cases hc : c = '"'
    · subst hc
      have he : escapeQuotes ('"' :: f') = '"' :: '"' :: escapeQuotes f' := by
        simp [escapeQuotes]
      rw [he, List.cons_append, List.cons_append, goCSV_quoted_quote,
        goCSV_closed_quote, ih rest (f0 ++ ['"']) r, List.append_assoc,
        List.singleton_append]
    · have he : escapeQuotes (c :: f') = c :: escapeQuotes f' := by
        simp [escapeQuotes, hc]
      rw [he, List.cons_append, goCSV_quoted_other c hc,
        ih rest (f0 ++ [c]) r, List.append_assoc, List.singleton_append]

/-- Reading an encoded field followed by a delimiter closes the field. -/
theorem goField_encodeField_comma (s : String) (rest : List Char)
    (r : List String) :
    goCSV .field (encodeField s ++ ',' :: rest) [] r =
      goCSV .field rest [] (r ++ [s]) := by
  unfold encodeField
  cases hq : needsQuote s.data with
  | false =>
    simp only [hq, Bool.false_eq_true, if_false]
    rw [goField_plain s.data (not_needsQuote s.data hq) (',' :: rest) [] r,
      goCSV_field_comma, List.nil_append, mk_data]
  | true =>
    simp only [hq, if_true]
    rw [List.cons_append, List.append_assoc, List.singleton_append,
      goCSV_field_quote_start, goQuoted_esc s.data ('"' :: ',' :: rest) [] r,
      goCSV_quoted_quote, goCSV_closed_comma, List.nil_append, mk_data]

/-- Reading an encoded field followed by CRLF closes the field and the
row. -/
theorem goField_encodeField_crlf (s : String) (rest : List Char)
    (r : List String) :
    goCSV .field (encodeField s ++ '\r' :: '\n' :: rest) [] r =
      (r ++ [s]) :: goCSV .field rest [] [] := by
  unfold encodeField
  cases hq : needsQuote s.data with
  | false =>
    simp only [hq, Bool.false_eq_true, if_false]
    rw [goField_plain s.data (not_needsQuote s.data hq) ('\r' :: '\n' :: rest)
      [] r, goCSV_field_cr, goCSV_cr_lf, List.nil_append, mk_data]
  | true =>
    simp only [hq, if_true]
    rw [List.cons_append, List.append_assoc, List.singleton_append,
      goCSV_field_quote_start,
      goQuoted_esc s.data ('"' :: '\r' :: '\n' :: rest) [] r,
      goCSV_quoted_quote, goCSV_closed_cr, goCSV_cr_lf, List.nil_append,
      mk_data]

/-- Reading an encoded nonempty row followed by CRLF yields exactly that
row. -/
theorem goField_encodeRow :
    ∀ fields : List String, fields ≠ [] → ∀ rest r,
    goCSV .field (encodeRow fields ++ '\r' :: '\n' :: rest) [] r =
      (r ++ fields) :: goCSV .field rest [] [] := by
  intro fields
  induction fields with
  | nil => intro h; exact absurd rfl h
  | cons f fs ih =>
    intro _ rest r
    cases fs with
    | nil =>
      rw [encodeRow]
      exact goField_encodeField_crlf f rest r
    | cons f2 fs' =>
      have hne2 : f2 :: fs' ≠ [] := fun hcc => List.noConfusion hcc
      have hih := ih hne2 rest (r ++ [f])
      rw [encodeRow, List.append_assoc, List.cons_append]
      rw [goField_encodeField_comma f (encodeRow (f2 :: fs') ++
        '\r' :: '\n' :: rest) r]
      rw [hih]
      · simp [List.append_assoc]
      · exact hne2

/-- Reading back a sequence of encoded nonempty rows yields exactly those
rows. -/
theorem parse_encode_rows :
    ∀ rows : List (List String), (∀ row ∈ rows, row ≠ []) →
    goCSV .field ((rows.map fun row => encodeRow row ++ ['\r', '\n']).flatten)
      [] [] = rows := by
  intro rows
  induction rows with
  | nil => intro _; simp [goCSV, csvFlush]
  | cons row rest ih =>
    intro h
    simp only [List.map_cons, List.flatten_cons, List.append_assoc,
      List.cons_append, List.nil_append]
    rw [goField_encodeRow row (h row (by simp)) _ []]
    rw [ih (fun row' hr' => h row' (List.mem_cons_of_mem _ hr'))]
    simp

/-- The text written by a writer loop (header first, then one `writerow`
per record) is the concatenation of the encoded rows. -/
theorem foldl_writerow_data {α : Type} (l : List α) (g : α → List String) :
    ∀ init : String,
    (l.foldl (fun file x => file ++ writerow (g x)) init).data =
      init.data ++ (l.map fun x => encodeRow (g x) ++ ['\r', '\n']).flatten := by
  induction l with
  | nil => intro init; simp
  | cons x xs ih =>
    intro init
    simp only [List.foldl_cons, List.map_cons, List.flatten_cons, ih,
      data_append]
    simp [writerow, List.append_assoc]

/-! ## Tag-list reconstruction lemmas -/

theorem consHead_ne_nil (c : Char) (l : List (List Char)) :
    consHead c l ≠ [] := by
  cases l <;> simp [consHead]

theorem splitSepChars_ne_nil (cs : List Char) : splitSepChars cs ≠ [] := by
  cases cs with
  | nil => simp [splitSepChars]
  | cons c1 tail =>
    cases tail with
    | nil => simp [splitSepChars]
    | cons c2 rest =>
      rw [splitSepChars]
      split
      · exact fun hcc => List.noConfusion hcc
      · exact consHead_ne_nil c1 _

/-- A comma-free prefix of the flattened field lands entirely in the first
piece of the split. -/
theorem splitSep_prefix :
    ∀ f : List Char, (',' : Char) ∉ f → ∀ cs hd tl,
    splitSepChars cs = hd :: tl →
    splitSepChars (f ++ cs) = (f ++ hd) :: tl := by
  intro f
  induction f with
  | nil => intro _ cs hd tl h; simpa using h
  | cons c f' ih =>
    intro hnc cs hd tl h
    have hc : c ≠ ',' := fun he => hnc (by simp [he])
    have hrec := ih (fun hm => hnc (List.mem_cons_of_mem c hm)) cs hd tl h
    cases hfc : f' ++ cs with
    | nil =>
      obtain ⟨hf', hcs⟩ := List.append_eq_nil.mp hfc
      subst hf'; subst hcs
      simp only [splitSepChars] at h
      obtain ⟨hhd, htl⟩ : ([] : List Char) = hd ∧ ([] : List (List Char)) = tl := by
        cases h; exact ⟨rfl, rfl⟩
      subst hhd; subst htl
      simp [splitSepChars]
    | cons d ds =>
      have hgoal : c :: (f' ++ cs) = c :: d :: ds := by rw [hfc]
      rw [List.cons_append, hgoal, splitSepChars,
        if_neg (fun hand => hc hand.1), ← hfc, hrec]
      simp [consHead]

/-- Splitting the `", "`-join of comma-free tags recovers the tags
(character level). -/
theorem splitSep_joinTags :
    ∀ tags : List String, tags ≠ [] → (∀ t ∈ tags, (',' : Char) ∉ t.data) →
    splitSepChars (joinTags tags).data = tags.map String.data := by
  intro tags
  induction tags with
  | nil => intro h; exact absurd rfl h
  | cons t ts ih =>
    intro _ hfree
    cases ts with
    | nil =>
      rw [joinTags]
      have hp := splitSep_prefix t.data (hfree t (by simp)) [] [] []
        (by simp [splitSepChars])
      simpa using hp
    | cons t2 ts' =>
      rw [joinTags]
      case x_1 => exact fun hcc => List.noConfusion hcc
      have hIH := ih (fun hcc => List.noConfusion hcc)
        (fun t' ht' => hfree t' (List.mem_cons_of_mem _ ht'))
      have hdata : ((t ++ ", ") ++ joinTags (t2 :: ts')).data =
          t.data ++ (',' :: ' ' :: (joinTags (t2 :: ts')).data) := by
        simp [data_append]
      have hrest : splitSepChars (',' :: ' ' :: (joinTags (t2 :: ts')).data) =
          [] :: (t2 :: ts').map String.data := by
        rw [splitSepChars, if_pos ⟨rfl, rfl⟩, hIH]
      rw [hdata, splitSep_prefix t.data (hfree t (by simp)) _ [] _ hrest]
      simp

/-- Splitting the `", "`-join of a nonempty comma-free tag list recovers
the tag list. -/
theorem reconstructTags_joinTags (tags : List String) (h1 : tags ≠ [])
    (h2 : ∀ t ∈ tags, (',' : Char) ∉ t.data) :
    reconstructTags (joinTags tags) = tags := by
  unfold reconstructTags
  rw [splitSep_joinTags tags h1 h2, List.map_map]
  have hcomp : (String.mk ∘ String.data) = id := funext fun s => mk_data s
  rw [hcomp, List.map_id]

/-- A writer loop's output parses back to the header row followed by one
row per record, provided all rows are nonempty. -/
theorem parseCSV_foldl {α : Type} (l : List α) (g : α → List String)
    (header : List String) (hh : header ≠ []) (hg : ∀ x, g x ≠ []) :
    parseCSV (l.foldl (fun file x => file ++ writerow (g x)) (writerow header)) =
      header :: l.map g := by
  unfold parseCSV
  rw [foldl_writerow_data l g (writerow header)]
  have hflat : (writerow header).data ++
      (l.map fun x => encodeRow (g x) ++ ['\r', '\n']).flatten =
      ((header :: l.map g).map fun row => encodeRow row ++ ['\r', '\n']).flatten := by
    simp only [List.map_cons, List.flatten_cons, List.map_map]
    rfl
  rw [hflat, parse_encode_rows]
  intro row hrow
  rcases List.mem_cons.mp hrow with rfl | hmem
  · exact hh
  · obtain ⟨x, _, rfl⟩ := List.mem_map.mp hmem
    exact hg x

/-- With duplicate-free keys, the author rows contain exactly one row per
cached author, carrying the stored biography. -/
theorem filter_author_rows :
    ∀ l : List (String × String), (l.map Prod.fst).Nodup →
    ∀ a b, lookupBio a l = some b →
    (l.map fun ab => [ab.1, ab.2]).filter (fun row => row.head? == some a) =
      [[a, b]] := by
  intro l
  induction l with
  | nil => intro _ a b h; simp [lookupBio] at h
  | cons kv rest ih =>
    intro hnd a b h
    have hnd' : (rest.map Prod.fst).Nodup := (List.nodup_cons.mp (by simpa using hnd)).2
    have hknotin : kv.1 ∉ rest.map Prod.fst := (List.nodup_cons.mp (by simpa using hnd)).1
    by_cases hk : kv.1 = a
    · have hb : kv.2 = b := by simpa [lookupBio, hk] using h
      subst hk; subst hb
      simp only [List.map_cons, List.filter_cons]
      have hhead : (([kv.1, kv.2] : List String).head? == some kv.1) = true := by simp
      rw [if_pos hhead]
      have hnone : (rest.map fun ab => [ab.1, ab.2]).filter
          (fun row => row.head? == some kv.1) = [] := by
        rw [List.filter_eq_nil_iff]
        intro row hrow
        obtain ⟨ab, hab, rfl⟩ := List.mem_map.mp hrow
        simp only [List.head?, beq_iff_eq, Option.some.injEq]
        intro habs
        exact hknotin (habs ▸ List.mem_map.mpr ⟨ab, hab, rfl⟩)
      rw [hnone]
    · have hb : lookupBio a rest = some b := by simpa [lookupBio, hk] using h
      simp only [List.map_cons, List.filter_cons]
      rw [if_neg (by simpa using hk)]
      exact ih hnd' a b hb

/-! ## Malformed quote blocks -/

/-- A block missing a required sub-element makes `parse_single_quote`
fail. -/
theorem parse_malformed (env : ScrapeEnv) (qs : QuoteSoup) (st : ScrapeState)
    (h : qs.textElem = none ∨ qs.authorElem = none ∨ qs.authorHref = none) :
    ∃ e, parse_single_quote env qs st = .error e := by
  obtain ⟨tx, au, tg, hr⟩ := qs
  cases tx with
  | none => exact ⟨.missingText, rfl⟩
  | some text =>
    cases au with
    | none => exact ⟨.missingAuthor, rfl⟩
    | some author =>
      cases hr with
      | none => exact ⟨.missingAuthorLink, rfl⟩
      | some href => rcases h with h | h | h <;> simp at h

/-- A page containing a malformed block makes the whole page parse fail:
nothing is skipped and no partial row survives. -/
theorem page_malformed (env : ScrapeEnv) :
    ∀ (blocks : List QuoteSoup) (st : ScrapeState) (qs : QuoteSoup),
    qs ∈ blocks →
    qs.textElem = none ∨ qs.authorElem = none ∨ qs.authorHref = none →
    ∃ e, get_single_page_quotes env blocks st = .error e := by
  intro blocks
  induction blocks with
  | nil => intro st qs h; simp at h
  | cons b rest ih =>
    intro st qs hmem hmal
    cases hmem with
    | head =>
      obtain ⟨e, he⟩ := parse_malformed env b st hmal
      exact ⟨e, by simp [get_single_page_quotes, he]⟩
    | tail _ hmem' =>
      cases hp : parse_single_quote env b st with
      | error e => exact ⟨e, by simp [get_single_page_quotes, hp]⟩
      | ok pr =>
        obtain ⟨q, st₁⟩ := pr
        obtain ⟨e, he⟩ := ih st₁ qs hmem' hmal
        exact ⟨e, by simp [get_single_page_quotes, hp, he]⟩

/-! ## Concrete environments for witnesses and counterexamples -/

/-- The scenario of the spec's §8: page 1 has quotes by authors `A` and
`B`, page 2 one more quote by `A`, page 3 is a 404.  Author `A`'s detail
page responds 200 with a biography, author `B`'s responds 500. -/
def envW : ScrapeEnv :=
  ⟨fun n =>
    if n = 1 then
      .response 200 [⟨some "T1", some "A", ["t1", "t2"], some "a"⟩,
                     ⟨some "T2", some "B", [], some "b"⟩]
    else if n = 2 then .response 200 [⟨some "T3", some "A", [], some "a"⟩]
    else .response 404 [],
   fun url =>
    if url = BASE_URL ++ "a" then .response 200 (some " Bio A ")
    else if url = BASE_URL ++ "b" then .response 500 none
    else .response 404 none⟩

/-- The quotes `get_quotes envW` accumulates. -/
def quotesW : List Quote :=
  [⟨"T1", "A", ["t1", "t2"]⟩, ⟨"T2", "B", []⟩, ⟨"T3", "A", []⟩]

/-- The final state of `get_quotes envW`. -/
def stW : ScrapeState :=
  ⟨[("A", "Bio A"), ("B", "Biography not available.")],
   [("A", "https://quotes.toscrape.com/a"),
    ("B", "https://quotes.toscrape.com/b")]⟩

/-- One good page followed by a 404, but every author detail fetch fails
at transport level. -/
def envC1x : ScrapeEnv :=
  ⟨fun n =>
    if n = 1 then .response 200 [⟨some "T", some "A", [], some "a"⟩]
    else .response 404 [],
   fun _ => .transportError⟩

/-- Author pages always answer 201 (a 2xx success) with a biography
present. -/
def envC3x : ScrapeEnv :=
  ⟨fun _ => .response 404 [],
   fun _ => .response 201 (some " The author biography. ")⟩

/-- Every listing page answers 500 with a body containing no quote
blocks. -/
def envC4x : ScrapeEnv :=
  ⟨fun _ => .response 500 [], fun _ => .transportError⟩

/-- Listing pages of `envC1x` as a page-indexed family of block lists. -/
def BC1x : Nat → List QuoteSoup := fun i =>
  if i = 1 then [⟨some "T", some "A", [], some "a"⟩] else []

/-- Listing pages of `envW` as a page-indexed family of block lists. -/
def BW : Nat → List QuoteSoup := fun i =>
  if i = 1 then [⟨some "T1", some "A", ["t1", "t2"], some "a"⟩,
                 ⟨some "T2", some "B", [], some "b"⟩]
  else if i = 2 then [⟨some "T3", some "A", [], some "a"⟩]
  else []

/-! ## Claim C1 -/

/-- C1, counterexample: page 1 is a good listing page (one well-formed
quote block) and page 2 is a 404, yet `get_quotes` does not return that
page's quotes — it aborts with a transport error, because the author
detail-page fetch fails at transport level.  This refutes the claim as
stated, which promises the concatenation of the pages' quotes from those
hypotheses alone. -/
theorem c1_counterexample :
    goodPage envC1x 1 (BC1x 1) ∧
    endPage envC1x 2 ∧
    get_quotes envC1x 5 = some (.error .transport) ∧
    ¬ ∃ st', get_quotes envC1x 5 =
      some (.ok (((List.range 1).map fun j =>
        (BC1x (1 + j)).filterMap quoteOfSoup).flatten, st')) := by
  refine ⟨⟨200, rfl, by decide, by decide, by decide⟩,
    Or.inl ⟨[], rfl⟩, rfl, ?_⟩
  rintro ⟨st', h⟩
  have hrfl : get_quotes envC1x 5 = some (.error .transport) := rfl
  rw [hrfl] at h
  simp at h

/-- C1, amended: for every sequence of listing pages where pages `1..k`
each fetch successfully and contain at least one (well-formed) quote
block, and page `k+1` either returns not-found or contains zero quote
blocks, and — the added proviso — every author detail-page fetch returns
an HTTP response rather than failing at transport level, `get_quotes`
terminates (any fuel of at least `k+1` loop iterations suffices and
yields the same value) and returns exactly the concatenation of the
quotes of pages `1..k`, in document order within each page and in
increasing page order across pages, starting from page index 1. -/
theorem c1_amended (env : ScrapeEnv) (k : Nat) (B : Nat → List QuoteSoup)
    (hgood : ∀ i, 1 ≤ i → i ≤ k → goodPage env i (B i))
    (hend : endPage env (k + 1))
    (hA : ∀ url, env.author url ≠ .transportError) :
    ∀ fuel, k + 1 ≤ fuel →
    ∃ st', get_quotes env fuel =
      some (.ok (((List.range k).map fun j =>
        (B (1 + j)).filterMap quoteOfSoup).flatten, st')) := by
  intro fuel hfuel
  have harith : 1 + k = k + 1 := by omega
  obtain ⟨st', hrun⟩ := aux_good env hA B k 1 [] initState
    (fun i h1 h2 => hgood i h1 (by omega)) (by rw [harith]; exact hend)
    fuel hfuel
  exact ⟨st', by simpa [get_quotes] using hrun⟩

/-- C1, witness: the spec's §8 scenario (two good pages, then a 404)
through the amended theorem. -/
theorem c1_witness :
    ∃ st', get_quotes envW 3 =
      some (.ok (((List.range 2).map fun j =>
        (BW (1 + j)).filterMap quoteOfSoup).flatten, st')) := by
  have hgood : ∀ i, 1 ≤ i → i ≤ 2 → goodPage envW i (BW i) := by
    intro i h1 h2
    have hi : i = 1 ∨ i = 2 := by omega
    rcases hi with rfl | rfl
    · exact ⟨200, rfl, by decide, by decide, by decide⟩
    · exact ⟨200, rfl, by decide, by decide, by decide⟩
  have hA : ∀ url, envW.author url ≠ .transportError := by
    intro url
    dsimp only [envW]
    split
    · exact fun hcc => AuthorFetchResult.noConfusion hcc
    · split
      · exact fun hcc => AuthorFetchResult.noConfusion hcc
      · exact fun hcc => AuthorFetchResult.noConfusion hcc
  exact c1_amended envW 2 BW hgood (Or.inl ⟨[], rfl⟩) hA 3 (by omega)

/-! ## Claim C2 -/

/-- C2: in every terminating successful run, the author-biography fetch
is invoked at most once per author name (the fetch log has
duplicate-free author names), every author of an accumulated quote has
exactly one fetch, the cache holds one entry per author (so any two
quotes by the same author share one identical stored biography string,
and the authors CSV gets a single row for that author), and a
`parse_single_quote` call whose author is already cached returns with
the state — cache and fetch log — completely unchanged, i.e. with no
network call. -/
theorem c2_at_most_once :
    (∀ env fuel qs st, get_quotes env fuel = some (.ok (qs, st)) →
      (st.fetchLog.map Prod.fst).Nodup ∧
      (st.author_bios.map Prod.fst).Nodup ∧
      ∀ a, a ∈ qs.map Quote.author → (st.fetchLog.map Prod.fst).count a = 1) ∧
    (∀ env qsoup st q st',
      parse_single_quote env qsoup st = .ok (q, st') →
      (lookupBio q.author st.author_bios).isSome → st' = st) := by
  constructor
  · intro env fuel qs st h
    obtain ⟨hpres, hiff, hlock, hnd⟩ := aux_inv env fuel 1 [] initState qs st h
    have hkeys : st.author_bios.map Prod.fst = st.fetchLog.map Prod.fst :=
      hlock (by simp [initState])
    have hnodup : (st.author_bios.map Prod.fst).Nodup := hnd (by simp [initState])
    have hiff' := hiff (fun a => by simp [initState, lookupBio])
    refine ⟨hkeys ▸ hnodup, hnodup, fun a ha => ?_⟩
    have hmem : a ∈ st.author_bios.map Prod.fst := by
      rw [← lookupBio_isSome_iff_mem]
      exact (hiff' a).mpr ha
    rw [← hkeys]
    exact List.count_eq_one_of_mem hnodup hmem
  · intro env qsoup st q st' hp hc
    exact (parse_step env qsoup st q st' hp).2.2.2.2.2 hc

/-- C2, witness: in the §8 scenario run (authors `A`, `B`, `A`), the
fetch log has duplicate-free names and author `A` — who has two quotes —
was fetched exactly once. -/
theorem c2_witness :
    (stW.fetchLog.map Prod.fst).Nodup ∧
    (stW.author_bios.map Prod.fst).Nodup ∧
    (stW.fetchLog.map Prod.fst).count "A" = 1 := by
  have h := c2_at_most_once.1 envW 3 quotesW stW rfl
  exact ⟨h.1, h.2.1, h.2.2 "A" (by decide)⟩

/-! ## Claim C3 -/

/-- C3, counterexample: an author detail page that answers 201 — a 2xx
success status — with the biography element present.  The claim predicts
the trimmed biography text; the code returns the sentinel, because it
tests `status != 200`, not "non-2xx". -/
theorem c3_counterexample :
    envC3x.author "u" = .response 201 (some " The author biography. ") ∧
    200 ≤ 201 ∧ 201 < 300 ∧
    get_author_bio envC3x "u" = .ok "Biography not available." ∧
    get_author_bio envC3x "u" ≠ .ok (pyStrip " The author biography. ") := by
  refine ⟨rfl, by omega, by omega, rfl, ?_⟩
  intro h
  have h2 : Except.ok (ε := ScrapeError) "Biography not available." =
      Except.ok (pyStrip " The author biography. ") := h
  injection h2 with h3
  exact absurd h3 (by decide)

/-- C3, amended: for every author detail page whose fetch returns a
status other than exactly 200, or returns 200 but whose body lacks the
biography element, `get_author_bio` returns the literal sentinel string
"Biography not available." and never propagates an error; when the
status is 200 and the element is present it returns the trimmed text of
the biography element. -/
theorem c3_amended (env : ScrapeEnv) (url : String) (s : Nat)
    (bioE : Option String) (h : env.author url = .response s bioE) :
    ((s ≠ 200 ∨ bioE = none) →
      get_author_bio env url = .ok "Biography not available.") ∧
    (∀ bio, s = 200 → bioE = some bio →
      get_author_bio env url = .ok (pyStrip bio)) := by
  constructor
  · rintro (hs | hb)
    · simp [get_author_bio, h, hs]
    · subst hb
      by_cases hs : s ≠ 200 <;> simp [get_author_bio, h, hs]
  · intro bio hs hb
    subst hs; subst hb
    simp [get_author_bio, h]

/-- C3, witness: author `A`'s page in the witness world answers 200 with
`" Bio A "`, and the resolver returns its trimmed text; author `B`'s
answers 500 and the resolver returns the sentinel. -/
theorem c3_witness :
    get_author_bio envW (BASE_URL ++ "a") = .ok "Bio A" ∧
    get_author_bio envW (BASE_URL ++ "b") = .ok "Biography not available." :=
  ⟨(c3_amended envW (BASE_URL ++ "a") 200 (some " Bio A ") rfl).2
      " Bio A " rfl rfl,
   (c3_amended envW (BASE_URL ++ "b") 500 none rfl).1 (Or.inl (by omega))⟩

/-! ## Claim C4 -/

/-- C4, counterexample: a listing page answering status 500 — a non-404
error status — with a block-free body.  The claim predicts a fatal
abort; the code instead parses the body, finds zero quotes, and ends
pagination normally with a successful (empty) result. -/
theorem c4_counterexample :
    envC4x.listing 1 = .response 500 [] ∧ (500 : Nat) ≠ 404 ∧
    get_quotes envC4x 2 = some (.ok ([], initState)) ∧
    ¬ ∃ e, get_quotes envC4x 2 = some (.error e) := by
  refine ⟨rfl, by omega, rfl, ?_⟩
  rintro ⟨e, h⟩
  have h2 : some (Except.ok (ε := ScrapeError) (([] : List Quote), initState)) =
      some (Except.error e) := h
  exact Except.noConfusion (Option.some.inj h2)

/-- C4, amended: a transport failure on a listing-page fetch aborts the
run fatally with no retry; a 404 status is the normal end-of-pagination
signal, returning the accumulated quotes; a non-404 error status is
*not* treated as fatal — the response body is parsed like any success,
and when it yields zero quote blocks pagination ends normally. -/
theorem c4_amended (env : ScrapeEnv) (fuel n : Nat) (acc : List Quote)
    (st : ScrapeState) :
    (env.listing n = .transportError →
      get_quotes_aux env (fuel + 1) n acc st = some (.error .transport)) ∧
    (∀ blocks, env.listing n = .response 404 blocks →
      get_quotes_aux env (fuel + 1) n acc st = some (.ok (acc, st))) ∧
    (∀ s, env.listing n = .response s [] → s ≠ 404 →
      get_quotes_aux env (fuel + 1) n acc st = some (.ok (acc, st))) := by
  refine ⟨fun h => ?_, fun blocks h => ?_, fun s h hs => ?_⟩
  · simp [get_quotes_aux, h]
  · simp [get_quotes_aux, h]
  · simp [get_quotes_aux, h, hs, get_single_page_quotes]

/-- C4, witness: the three listing outcomes at concrete inputs — a
transport failure aborts, a 404 returns the accumulator, and a 500 with
an empty body returns the accumulator normally. -/
theorem c4_witness :
    get_quotes_aux envC3x (0 + 1) 1 [] initState = some (.ok ([], initState)) ∧
    get_quotes_aux envC4x (0 + 1) 1 [] initState = some (.ok ([], initState)) :=
  ⟨(c4_amended envC3x 0 1 [] initState).2.1 [] rfl,
   (c4_amended envC4x 0 1 [] initState).2.2 500 rfl (by omega)⟩

/-! ## Claim C5 -/

/-- C5: for every list of quote records, `write_quotes_to_csv` writes
exactly one fixed header row `Text, Author, Tags` followed by one row
per quote in the order given, with each quote's tag list flattened into
a single field by joining the tags with the separator `", "` — the file
is precisely the CSV encoding of that row sequence. -/
theorem c5_rows (quotes : List Quote) :
    write_quotes_to_csv quotes =
      String.mk (((["Text", "Author", "Tags"] :: quotes.map quoteRow).map
        fun row => encodeRow row ++ ['\r', '\n']).flatten) := by
  have hdata : (write_quotes_to_csv quotes).data =
      ((["Text", "Author", "Tags"] :: quotes.map quoteRow).map
        fun row => encodeRow row ++ ['\r', '\n']).flatten := by
    unfold write_quotes_to_csv
    rw [foldl_writerow_data quotes quoteRow (writerow ["Text", "Author", "Tags"])]
    simp only [List.map_cons, List.flatten_cons, List.map_map]
    rfl
  rw [← hdata, mk_data]

/-! ## Claim C6 -/

/-- C6: for every author-to-biography mapping (duplicate-free keys, as a
Python dict guarantees), `write_authors_to_csv` writes exactly one
header row `Author, Biography` followed by exactly one row per distinct
author encountered, each row carrying that author's stored biography
string. -/
theorem c6_rows (author_bios : List (String × String)) :
    parseCSV (write_authors_to_csv author_bios) =
      ["Author", "Biography"] :: author_bios.map (fun ab => [ab.1, ab.2]) ∧
    ((author_bios.map Prod.fst).Nodup →
      ∀ a b, lookupBio a author_bios = some b →
      (author_bios.map fun ab => [ab.1, ab.2]).filter
        (fun row => row.head? == some a) = [[a, b]]) := by
  constructor
  · exact parseCSV_foldl author_bios (fun ab => [ab.1, ab.2])
      ["Author", "Biography"] (by simp) (fun ab => by simp)
  · exact filter_author_rows author_bios

/-- C6, witness: a two-author mapping round-trips to a header plus one
row per author, and author `A`'s single row carries the stored
biography. -/
theorem c6_witness :
    parseCSV (write_authors_to_csv [("A", "Bio A"), ("B", "x")]) =
      [["Author", "Biography"], ["A", "Bio A"], ["B", "x"]] ∧
    ([("A", "Bio A"), ("B", "x")].map
        (fun ab => [ab.1, ab.2])).filter
      (fun row => row.head? == some "A") = [["A", "Bio A"]] := by
  have h := c6_rows [("A", "Bio A"), ("B", "x")]
  exact ⟨h.1, h.2 (by decide) "A" "Bio A" rfl⟩

/-! ## Claim C7 -/

/-- C7, counterexample: the `", "`-join flattening convention is not
injective, so read-back tag fields do not always reconstruct the
original tag lists.  Two concrete quote lists: one quote with zero tags
writes the tag field `""`, which splits back to `[""]`, not `[]`; and
one quote with the single tag `"a, b"` (the flattened field is quoted
by the writer and read back exactly) splits back to `["a", "b"]`, not
`["a, b"]`. -/
theorem c7_counterexample :
    parseCSV (write_quotes_to_csv [⟨"t", "a", []⟩]) =
      [["Text", "Author", "Tags"], ["t", "a", ""]] ∧
    reconstructTags (joinTags ([] : List String)) = [""] ∧
    reconstructTags (joinTags ([] : List String)) ≠ [] ∧
    parseCSV (write_quotes_to_csv [⟨"t", "a", ["a, b"]⟩]) =
      [["Text", "Author", "Tags"], ["t", "a", "a, b"]] ∧
    reconstructTags (joinTags ["a, b"]) = ["a", "b"] ∧
    reconstructTags (joinTags ["a, b"]) ≠ ["a, b"] := by
  refine ⟨rfl, rfl, ?_, rfl, rfl, ?_⟩
  · decide
  · decide

/-- C7, amended: for every list of `N` quote records, writing them with
`write_quotes_to_csv` and reading the file back (splitting on the
delimiter, respecting quoting) yields `N` data rows whose text and
author fields match the originals exactly, and whose tag fields carry
the `", "`-join of the original tags; splitting such a field on the
separator recovers the original tag list whenever the flattening
convention is invertible there — for a nonempty tag list whose tags
contain no comma. -/
theorem c7_roundtrip (quotes : List Quote) :
    parseCSV (write_quotes_to_csv quotes) =
      ["Text", "Author", "Tags"] :: quotes.map quoteRow ∧
    (parseCSV (write_quotes_to_csv quotes)).length = quotes.length + 1 ∧
    (∀ q ∈ quotes, q.tags ≠ [] → (∀ t ∈ q.tags, (',' : Char) ∉ t.data) →
      reconstructTags (joinTags q.tags) = q.tags) := by
  have hmain : parseCSV (write_quotes_to_csv quotes) =
      ["Text", "Author", "Tags"] :: quotes.map quoteRow :=
    parseCSV_foldl quotes quoteRow ["Text", "Author", "Tags"] (by simp)
      (fun q => by simp [quoteRow])
  refine ⟨hmain, ?_, ?_⟩
  · rw [hmain]; simp
  · intro q _ h1 h2
    exact reconstructTags_joinTags q.tags h1 h2

/-- The quote used by the C7 witness: its text and author exercise the
quoting path (embedded delimiter and quote char). -/
def c7quote : Quote := ⟨"a \"quoted\", text", "Auth, or", ["t1", "t2"]⟩

/-- C7, witness: one quote whose fields need CSV quoting round-trips
exactly, and its flattened tag field splits back into the original tag
list. -/
theorem c7_witness :
    parseCSV (write_quotes_to_csv [c7quote]) =
      ["Text", "Author", "Tags"] :: [c7quote].map quoteRow ∧
    reconstructTags (joinTags ["t1", "t2"]) = ["t1", "t2"] := by
  have h := c7_roundtrip [c7quote]
  exact ⟨h.1, h.2.2 c7quote (by decide) (by decide) (by decide)⟩

/-! ## Claim C8 -/

/-- C8: for every quote block in which a required sub-element is absent
(the quote-text element, the author-name element, or the author
detail-page link element), quote extraction raises a fatal error: the
single-block parse fails, and a page containing such a block fails as a
whole — the quote is never silently skipped and no partial record is
produced. -/
theorem c8_missing_element_fatal (env : ScrapeEnv) (st : ScrapeState) :
    (∀ qs : QuoteSoup,
      qs.textElem = none ∨ qs.authorElem = none ∨ qs.authorHref = none →
      ∃ e, parse_single_quote env qs st = .error e) ∧
    (∀ (blocks : List QuoteSoup) (qs : QuoteSoup), qs ∈ blocks →
      qs.textElem = none ∨ qs.authorElem = none ∨ qs.authorHref = none →
      ∃ e, get_single_page_quotes env blocks st = .error e) :=
  ⟨fun qs h => parse_malformed env qs st h,
   fun blocks qs hm h => page_malformed env blocks st qs hm h⟩

/-- C8, witness: a block with no text element fails on its own, and a
page whose second block lacks the author link fails as a whole. -/
theorem c8_witness :
    (∃ e, parse_single_quote envW ⟨none, some "A", [], some "a"⟩ initState =
      .error e) ∧
    ∃ e, get_single_page_quotes envW
      [⟨some "T1", some "A", ["t1"], some "a"⟩,
       ⟨some "T", some "B", [], none⟩] initState = .error e :=
  ⟨(c8_missing_element_fatal envW initState).1
      ⟨none, some "A", [], some "a"⟩ (Or.inl rfl),
   (c8_missing_element_fatal envW initState).2
      [⟨some "T1", some "A", ["t1"], some "a"⟩, ⟨some "T", some "B", [], none⟩]
      ⟨some "T", some "B", [], none⟩ (by decide) (Or.inr (Or.inr rfl))⟩

/-! ## Claim C9 -/

/-- C9: once a key has been inserted into the author-biography cache,
its value is never overwritten — every later successful
`parse_single_quote` call leaves each existing cache entry unchanged. -/
theorem c9_cache_stable (env : ScrapeEnv) (qs : QuoteSoup) (st : ScrapeState)
    (q : Quote) (st' : ScrapeState)
    (h : parse_single_quote env qs st = .ok (q, st')) :
    ∀ a b, lookupBio a st.author_bios = some b →
      lookupBio a st'.author_bios = some b :=
  fun a b hb => (parse_step env qs st q st' h).2.1 a b hb

/-- C9, witness: parsing a quote by a new author `B` leaves the existing
entry for `A` intact. -/
theorem c9_witness :
    lookupBio "A" [("A", "old"), ("B", "Biography not available.")] =
      some "old" :=
  c9_cache_stable envW ⟨some "T", some "B", [], some "b"⟩
    ⟨[("A", "old")], []⟩ ⟨"T", "B", []⟩
    ⟨[("A", "old"), ("B", "Biography not available.")],
     [("B", "https://quotes.toscrape.com/b")]⟩ rfl "A" "old" rfl

/-! ## Claim C10 -/

/-- C10: in every terminating successful run of `get_quotes`, the key
set of the returned author-biography mapping equals exactly the set of
author names appearing among the returned quote records: every quote's
author has a cache entry, and no cache entry exists for an author with
no accumulated quote. -/
theorem c10_cache_keys (env : ScrapeEnv) (fuel : Nat) (qs : List Quote)
    (st : ScrapeState) (h : get_quotes env fuel = some (.ok (qs, st))) :
    ∀ a, (lookupBio a st.author_bios).isSome ↔ a ∈ qs.map Quote.author := by
  obtain ⟨-, hiff, -, -⟩ := aux_inv env fuel 1 [] initState qs st h
  exact hiff (fun a => by simp [initState, lookupBio])

/-- C10, witness: in the §8 scenario run, author `A` is both cached and
quoted, while an author `C` with no quote has no cache entry. -/
theorem c10_witness :
    ((lookupBio "A" stW.author_bios).isSome ↔ "A" ∈ quotesW.map Quote.author) ∧
    ((lookupBio "C" stW.author_bios).isSome ↔ "C" ∈ quotesW.map Quote.author) := by
  have h := c10_cache_keys envW 3 quotesW stW rfl
  exact ⟨h "A", h "C"⟩

end SQ
